import Mathlib

/-!
Verification of the `shared_mutex.cpp` program: a reader-writer-protected
counter (`ThreadSafeCounter`) and a stopwatch (`Timer`), shallowly embedded.

The counter stores an `unsigned int value_` (32 bits on the target
platforms), guarded by a `std::shared_mutex mutex_`.  Sequential calls are
modelled as explicit state passing over a `ThreadSafeCounter` record whose
mutex is tracked; acquiring a lock that is unavailable would block forever
in a single-thread run, so lock acquisition is fallible (`Option`).
Concurrent executions are modelled separately as a step relation over
configurations of n threads (see `Step` below).

The timer stores two `steady_clock` time points, modelled as integer
nanosecond counts; each call that reads the clock takes the current instant
as an explicit argument.
-/

/-- Modulus of the C++ type `unsigned int` on the target platforms
(ILP32/LP64: 32 bits).  Unsigned arithmetic is defined to wrap modulo this. -/
def uintMod : Nat := 2 ^ 32

/-- State of a `std::shared_mutex`: the number of shared (reader) holders and
whether the exclusive (writer) lock is held. -/
structure SharedMutexS where
  readers : Nat
  writerHeld : Bool
deriving DecidableEq, Repr

/-- A `std::shared_mutex` with no holders, as default-constructed. -/
def SharedMutexS.free : SharedMutexS := ⟨0, false⟩

/-- `lock()` (exclusive mode, as taken by `std::unique_lock`): succeeds only
when no reader and no writer holds the mutex; otherwise the caller blocks,
which in a sequential run never terminates (`none`). -/
def SharedMutexS.lock (m : SharedMutexS) : Option SharedMutexS :=
  if m.readers = 0 ∧ m.writerHeld = false then some ⟨0, true⟩ else none

/-- `unlock()` (exclusive mode, as run by `std::unique_lock`'s destructor). -/
def SharedMutexS.unlock (m : SharedMutexS) : SharedMutexS :=
  ⟨m.readers, false⟩

/-- `lock_shared()` (shared mode, as taken by `std::shared_lock`): succeeds
whenever no writer holds the mutex. -/
def SharedMutexS.lock_shared (m : SharedMutexS) : Option SharedMutexS :=
  if m.writerHeld = false then some ⟨m.readers + 1, false⟩ else none

/-- `unlock_shared()` (as run by `std::shared_lock`'s destructor). -/
def SharedMutexS.unlock_shared (m : SharedMutexS) : SharedMutexS :=
  ⟨m.readers - 1, m.writerHeld⟩

/-- The two fields of `class ThreadSafeCounter`: `mutable std::shared_mutex
mutex_;` and `unsigned int value_;`.  `value_` ranges over `[0, 2^32)`. -/
structure ThreadSafeCounter where
  mutex_ : SharedMutexS
  value_ : Nat
deriving DecidableEq, Repr

/-- `ThreadSafeCounter() = default;` — the member `unsigned int value_;` has
no initializer, so the defaulted constructor leaves it uninitialized: the
initial value is whatever the underlying memory holds, passed here as the
explicit argument `indeterminate`. -/
def ThreadSafeCounter.construct (indeterminate : Nat) : ThreadSafeCounter :=
  ⟨SharedMutexS.free, indeterminate % uintMod⟩

/-- `unsigned int get() const`: takes a `std::shared_lock` on `mutex_`, reads
`value_` (also printing it; output is not modelled), releases the lock when
the scope ends, and returns the value.  Returns the read value paired with
the post-call counter state, or `none` if the acquisition blocks forever. -/
def ThreadSafeCounter.get (c : ThreadSafeCounter) : Option (Nat × ThreadSafeCounter) :=
  match c.mutex_.lock_shared with
  | none => none
  | some m =>
      let locked : ThreadSafeCounter := ⟨m, c.value_⟩
      let result := locked.value_
      some (result, ⟨locked.mutex_.unlock_shared, locked.value_⟩)

/-- `void increment()`: takes a `std::unique_lock` on `mutex_`, performs
`++value_` (unsigned, hence wrapping modulo `2^32`; the print is not
modelled), and releases the lock when the scope ends. -/
def ThreadSafeCounter.increment (c : ThreadSafeCounter) : Option ThreadSafeCounter :=
  match c.mutex_.lock with
  | none => none
  | some m =>
      let locked : ThreadSafeCounter := ⟨m, (c.value_ + 1) % uintMod⟩
      some ⟨locked.mutex_.unlock, locked.value_⟩

/-- `void reset()`: takes a `std::unique_lock` on `mutex_`, performs
`value_ = 0`, and releases the lock when the scope ends. -/
def ThreadSafeCounter.reset (c : ThreadSafeCounter) : Option ThreadSafeCounter :=
  match c.mutex_.lock with
  | none => none
  | some m =>
      let locked : ThreadSafeCounter := ⟨m, 0⟩
      some ⟨locked.mutex_.unlock, locked.value_⟩

/-- The value returned by a `get()` call, discarding the post-call state. -/
def ThreadSafeCounter.getFst (c : ThreadSafeCounter) : Option Nat :=
  (c.get).map Prod.fst

/-- A counter whose stored value is `0` with a free mutex: the start state
assumed by the count-correctness property (`value = 0`). -/
def initCounter : ThreadSafeCounter := ⟨SharedMutexS.free, 0⟩

/-- `K` completed `increment()` calls in sequence (under mutual exclusion any
interleaving of completed increments is equivalent to some sequence). -/
def repIncrement : Nat → ThreadSafeCounter → Option ThreadSafeCounter
  | 0, c => some c
  | k + 1, c => (repIncrement k c).bind ThreadSafeCounter.increment

/-- A counter with value `v` and a free mutex, as between completed calls. -/
def counterAt (v : Nat) : ThreadSafeCounter := ⟨SharedMutexS.free, v % uintMod⟩

/-- The two fields of `class Timer`: `typename CLOCK_T::time_point start_,
end_;`.  A `std::chrono::steady_clock::time_point` is its integer count of
nanoseconds since the clock's epoch (signed 64-bit; the magnitudes involved
stay far below the 64-bit bound, so plain `Int` is used). -/
structure Timer where
  start_ : Int
  end_ : Int
deriving DecidableEq, Repr

/-- `Timer() noexcept : start_{CLOCK_T::now()}, end_{start_} {}` — `t` is
the instant `now()` returned at construction. -/
def Timer.construct (t : Int) : Timer := ⟨t, t⟩

/-- `Timer& tic() noexcept { start_ = end_ = CLOCK_T::now(); return *this; }`
— `t` is the instant `now()` returned during the call; the returned
reference is the instance itself, i.e. the updated timer. -/
def Timer.tic (_tm : Timer) (t : Int) : Timer := ⟨t, t⟩

/-- `Timer& toc() & noexcept { end_ = CLOCK_T::now(); return *this; }` -/
def Timer.toc (tm : Timer) (t : Int) : Timer := ⟨tm.start_, t⟩

/-- `std::chrono::duration_cast<T>(d)` for a target unit `T` with integral
representation whose period spans `unitNs` nanoseconds (`milliseconds`:
`unitNs = 10^6`): the source count is divided by the period ratio with
truncation toward zero (C++ integer-division semantics). -/
def duration_cast (d unitNs : Int) : Int := Int.tdiv d unitNs

/-- `double tics() const noexcept`: returns
`duration_cast<T>(end_ - start_).count()` cast to `double`.  For a unit `T`
with integral representation the count is an integer and the cast to
`double` is exact at these magnitudes, so the result is modelled as the
integer count. -/
def Timer.tics (tm : Timer) (unitNs : Int) : Int :=
  duration_cast (tm.end_ - tm.start_) unitNs

/-- `template <typename U = T> U get_duration() const noexcept`: returns
`duration_cast<U>(end_ - start_)`, modelled as the duration's integer count
in the unit `U`. -/
def Timer.get_duration (tm : Timer) (unitNs : Int) : Int :=
  duration_cast (tm.end_ - tm.start_) unitNs

/-- The two writer operations of `ThreadSafeCounter`. -/
inductive WriterOp
  | increment
  | reset
deriving DecidableEq, Repr

/-- What a thread of the driver runs against the shared counter: a reader
executes one `get()`, a writer executes one `increment()` or `reset()`. -/
inductive ThreadProg
  | reader
  | writer (op : WriterOp)
deriving DecidableEq, Repr

/-- Control location of a thread: before its lock acquisition, inside its
critical section (lock held), or finished (lock released). -/
inductive ThreadPc
  | atStart
  | inCS
  | atDone
deriving DecidableEq, Repr

/-- The effect of a writer critical section on `value_`. -/
def writerBody : WriterOp → Nat → Nat
  | WriterOp.increment, v => (v + 1) % uintMod
  | WriterOp.reset, _ => 0

/-- A configuration of `n` threads sharing one `ThreadSafeCounter`: the
`shared_mutex` state, the stored `value_`, and each thread's location. -/
structure Conf (n : Nat) where
  mutex : SharedMutexS
  value : Nat
  pc : Fin n → ThreadPc

/-- The initial configuration: mutex free, all threads before their calls.
`v0` is the counter's (indeterminate, see `ThreadSafeCounter.construct`)
initial value. -/
def initConf (n v0 : Nat) : Conf n :=
  ⟨SharedMutexS.free, v0, fun _ => ThreadPc.atStart⟩

/-- One interleaving step.  A reader acquires the shared lock only while no
writer holds the mutex; a writer acquires the exclusive lock only while no
reader and no writer holds it; releases are always enabled for the holder.
The writer's body takes effect during its critical section, folded here into
the release step (the lock is held throughout either way). -/
inductive Step (n : Nat) (prog : Fin n → ThreadProg) : Conf n → Conf n → Prop
  | readerAcquire (c : Conf n) (i : Fin n) (hp : prog i = ThreadProg.reader)
      (hpc : c.pc i = ThreadPc.atStart) (hw : c.mutex.writerHeld = false) :
      Step n prog c
        ⟨⟨c.mutex.readers + 1, false⟩, c.value, Function.update c.pc i ThreadPc.inCS⟩
  | readerRelease (c : Conf n) (i : Fin n) (hp : prog i = ThreadProg.reader)
      (hpc : c.pc i = ThreadPc.inCS) :
      Step n prog c
        ⟨⟨c.mutex.readers - 1, c.mutex.writerHeld⟩, c.value,
          Function.update c.pc i ThreadPc.atDone⟩
  | writerAcquire (c : Conf n) (i : Fin n) (op : WriterOp)
      (hp : prog i = ThreadProg.writer op) (hpc : c.pc i = ThreadPc.atStart)
      (hw : c.mutex.writerHeld = false) (hr : c.mutex.readers = 0) :
      Step n prog c
        ⟨⟨0, true⟩, c.value, Function.update c.pc i ThreadPc.inCS⟩
  | writerRelease (c : Conf n) (i : Fin n) (op : WriterOp)
      (hp : prog i = ThreadProg.writer op) (hpc : c.pc i = ThreadPc.inCS) :
      Step n prog c
        ⟨⟨c.mutex.readers, false⟩, writerBody op c.value,
          Function.update c.pc i ThreadPc.atDone⟩

/-- Configurations reachable from the initial one by some interleaving. -/
def Reachable (n : Nat) (prog : Fin n → ThreadProg) (v0 : Nat) (c : Conf n) : Prop :=
  Relation.ReflTransGen (Step n prog) (initConf n v0) c

/-- Thread `i` is inside the body of `increment()` or `reset()`: it holds
the exclusive lock. -/
def InWriterCS (n : Nat) (prog : Fin n → ThreadProg) (c : Conf n) (i : Fin n) : Prop :=
  c.pc i = ThreadPc.inCS ∧ ∃ op, prog i = ThreadProg.writer op

/-- The mutual-exclusion invariant: a thread inside a writer critical
section implies the exclusive bit is held, and at most one thread is inside
a writer critical section. -/
def WInv (n : Nat) (prog : Fin n → ThreadProg) (c : Conf n) : Prop :=
  (∀ i, InWriterCS n prog c i → c.mutex.writerHeld = true) ∧
    ∀ i j, InWriterCS n prog c i → InWriterCS n prog c j → i = j

/-- Two threads that each run one `increment()` call. -/
def twoWriters : Fin 2 → ThreadProg := fun _ => ThreadProg.writer WriterOp.increment

/-- The configuration in which the first of the two writers has entered its
critical section. -/
def confOneWriterIn : Conf 2 :=
  ⟨⟨0, true⟩, 0, Function.update (initConf 2 0).pc 0 ThreadPc.inCS⟩

lemma increment_counterAt (v : Nat) :
    (counterAt v).increment = some (counterAt (v + 1)) := by
  simp [ThreadSafeCounter.increment, counterAt, SharedMutexS.lock,
    SharedMutexS.free, SharedMutexS.unlock, Nat.add_mod_left, Nat.mod_add_mod]

lemma repIncrement_counterAt (k v : Nat) :
    repIncrement k (counterAt v) = some (counterAt (v + k)) := by
  induction k with
  | zero => rfl
  | succ n ih =>
      simp [repIncrement, ih, increment_counterAt, Nat.add_assoc]

lemma getFst_counterAt (v : Nat) : (counterAt v).getFst = some (v % uintMod) := by
  simp [ThreadSafeCounter.getFst, ThreadSafeCounter.get, counterAt,
    SharedMutexS.lock_shared, SharedMutexS.free]

lemma initCounter_eq : initCounter = counterAt 0 := rfl

lemma reset_spec (c : ThreadSafeCounter) (h : c.mutex_ = SharedMutexS.free) :
    c.reset = some (counterAt 0) := by
  obtain ⟨m, v⟩ := c
  cases h
  simp [ThreadSafeCounter.reset, SharedMutexS.lock, SharedMutexS.free,
    SharedMutexS.unlock, counterAt]

/-- C1 counterexample: after exactly `2^32` completed `increment()` calls
starting from value `0`, `get()` returns `0`, not `2^32` — the `unsigned int`
value has wrapped around. -/
theorem count_after_pow32_increments :
    (repIncrement (2 ^ 32) initCounter).bind ThreadSafeCounter.getFst ≠ some (2 ^ 32) := by
  rw [initCounter_eq, repIncrement_counterAt]
  simp [getFst_counterAt, uintMod]

/-- C1 (amended): starting from value `0`, after exactly `K` completed
`increment()` calls, `get()` returns `K % 2^32` — equal to `K` whenever
`K < 2^32`; no updates are lost, but the value wraps modulo `2^32`. -/
theorem count_after_K_increments (K : Nat) :
    (repIncrement K initCounter).bind ThreadSafeCounter.getFst = some (K % uintMod) := by
  rw [initCounter_eq, repIncrement_counterAt]
  simp [getFst_counterAt]

/-- C2 (code bug): `ThreadSafeCounter() = default;` leaves the member
`unsigned int value_;` uninitialized, so on a freshly constructed counter the
first `get()` returns whatever the underlying memory held (here `7`), not
necessarily `0`. -/
theorem get_of_default_constructed :
    (ThreadSafeCounter.construct 7).getFst = some 7 ∧ (7 : Nat) ≠ 0 := by
  constructor
  · rfl
  · decide

/-- C3 counterexample: on the counter state with value `2^32 - 1` (mutex
free), `increment()` leaves value `0`, not `(2^32 - 1) + 1 = 2^32`. -/
theorem increment_at_max_not_succ :
    ((counterAt (uintMod - 1)).increment).map ThreadSafeCounter.value_ = some 0 ∧
      (0 : Nat) ≠ (uintMod - 1) + 1 := by
  constructor
  · rw [increment_counterAt]
    simp [counterAt, uintMod]
  · decide

/-- C3 (amended): on every counter state whose mutex is free, `increment()`
completes, setting the value to `(v + 1) % 2^32` (equal to `v + 1` whenever
`v + 1 < 2^32`), and the only other field, the mutex, is returned to its
pre-call free state. -/
theorem increment_step (c : ThreadSafeCounter) (h : c.mutex_ = SharedMutexS.free) :
    c.increment = some ⟨c.mutex_, (c.value_ + 1) % uintMod⟩ := by
  obtain ⟨m, v⟩ := c
  cases h
  simp [ThreadSafeCounter.increment, SharedMutexS.lock, SharedMutexS.free,
    SharedMutexS.unlock]

/-- Witness for C3's amended theorem at the concrete state `⟨free, 5⟩`. -/
theorem increment_step_witness :
    (⟨SharedMutexS.free, 5⟩ : ThreadSafeCounter).mutex_ = SharedMutexS.free ∧
      (⟨SharedMutexS.free, 5⟩ : ThreadSafeCounter).increment =
        some ⟨SharedMutexS.free, 6⟩ :=
  ⟨rfl, increment_step ⟨SharedMutexS.free, 5⟩ rfl⟩

/-- C4 counterexample: after `reset()` and then exactly `2^32` subsequent
`increment()` calls, `get()` returns `0`, not `2^32` — the continuation from
`0` also wraps modulo `2^32`. -/
theorem reset_then_pow32_increments :
    (((counterAt 5).reset.bind (repIncrement (2 ^ 32))).bind
        ThreadSafeCounter.getFst) ≠ some (2 ^ 32) := by
  have h0 : 0 < uintMod := by unfold uintMod; positivity
  show (((counterAt 5).reset.bind (repIncrement uintMod)).bind
      ThreadSafeCounter.getFst) ≠ some uintMod
  rw [reset_spec (counterAt 5) rfl]
  rw [Option.some_bind, repIncrement_counterAt, Option.some_bind,
    getFst_counterAt, Nat.zero_add, Nat.mod_self]
  intro hc
  rw [Option.some.injEq] at hc
  exact absurd hc (Nat.ne_of_lt h0)

/-- C4 (amended): on every counter state whose mutex is free, `reset()`
completes leaving value `0` with a free mutex, the next `get()` returns `0`,
and a subsequent sequence of `J` `increment()` calls followed by `get()`
returns `J % 2^32` (equal to `J` whenever `J < 2^32`). -/
theorem reset_correctness (c : ThreadSafeCounter) (h : c.mutex_ = SharedMutexS.free)
    (J : Nat) :
    c.reset = some (counterAt 0) ∧
      c.reset.bind ThreadSafeCounter.getFst = some 0 ∧
      (c.reset.bind (repIncrement J)).bind ThreadSafeCounter.getFst =
        some (J % uintMod) := by
  refine ⟨reset_spec c h, ?_, ?_⟩
  · rw [reset_spec c h]
    simp [getFst_counterAt, uintMod]
  · rw [reset_spec c h]
    simp [repIncrement_counterAt, getFst_counterAt]

/-- Witness for C4's amended theorem at the concrete state `⟨free, 5⟩`,
`J = 3`. -/
theorem reset_correctness_witness :
    (⟨SharedMutexS.free, 5⟩ : ThreadSafeCounter).mutex_ = SharedMutexS.free ∧
      ((⟨SharedMutexS.free, 5⟩ : ThreadSafeCounter).reset = some (counterAt 0) ∧
        (⟨SharedMutexS.free, 5⟩ : ThreadSafeCounter).reset.bind
            ThreadSafeCounter.getFst = some 0 ∧
        ((⟨SharedMutexS.free, 5⟩ : ThreadSafeCounter).reset.bind
              (repIncrement 3)).bind ThreadSafeCounter.getFst = some (3 % uintMod)) :=
  ⟨rfl, reset_correctness ⟨SharedMutexS.free, 5⟩ rfl 3⟩

/-- C5: on every counter state on which the shared lock can be taken (no
writer holds the mutex), `get()` returns the stored value and the post-call
state equals the pre-call state — the value and the mutex are unchanged. -/
theorem get_pure (c : ThreadSafeCounter) (h : c.mutex_.writerHeld = false) :
    c.get = some (c.value_, c) := by
  obtain ⟨⟨r, w⟩, v⟩ := c
  simp only at h
  cases h
  simp [ThreadSafeCounter.get, SharedMutexS.lock_shared, SharedMutexS.unlock_shared]

/-- Witness for C5 at the concrete state with two readers and value `9`. -/
theorem get_pure_witness :
    (⟨⟨2, false⟩, 9⟩ : ThreadSafeCounter).mutex_.writerHeld = false ∧
      (⟨⟨2, false⟩, 9⟩ : ThreadSafeCounter).get =
        some (9, ⟨⟨2, false⟩, 9⟩) :=
  ⟨rfl, get_pure ⟨⟨2, false⟩, 9⟩ rfl⟩

/-- C9: `value_` is an `unsigned int` (32 bits), so `increment()` wraps
modulo `2^32`: from stored value `2^32 - 1` it yields `0`, neither failing
nor saturating, and every stored value stays below `2^32`. -/
theorem increment_wraps_mod_pow32 :
    (⟨SharedMutexS.free, 2 ^ 32 - 1⟩ : ThreadSafeCounter).increment =
      some ⟨SharedMutexS.free, 0⟩ ∧
      ∀ c c2 : ThreadSafeCounter, c.increment = some c2 → c2.value_ < 2 ^ 32 := by
  constructor
  · rw [show (⟨SharedMutexS.free, 2 ^ 32 - 1⟩ : ThreadSafeCounter) =
        counterAt (2 ^ 32 - 1) by simp [counterAt, uintMod],
      increment_counterAt]
    simp [counterAt, uintMod]
  · intro c c2 hinc
    simp only [ThreadSafeCounter.increment] at hinc
    split at hinc
    · exact absurd hinc (by simp)
    · simp only [Option.some.injEq] at hinc
      subst hinc
      exact Nat.mod_lt _ (by unfold uintMod; positivity)

lemma tdiv_eq_ediv_nonneg (a b : Int) (h : 0 ≤ a) (h2 : 0 ≤ b) :
    a.tdiv b = a / b := by
  match a, b with
  | Int.ofNat m, Int.ofNat n => rfl
  | Int.ofNat m, Int.negSucc n => exact absurd h2 (Int.negSucc_lt_zero n).not_le
  | Int.negSucc m, _ => exact absurd h (Int.negSucc_lt_zero m).not_le

/-- C7: `tic()` called at instant `t` sets both `start_` and `end_` to `t`,
and the returned instance is exactly the updated timer; therefore `tics()`
invoked immediately afterwards, in any unit, reports a zero duration. -/
theorem tic_resets (tm : Timer) (t u : Int) :
    tm.tic t = ⟨t, t⟩ ∧ (tm.tic t).tics u = 0 := by
  refine ⟨rfl, ?_⟩
  show Int.tdiv (t - t) u = 0
  rw [sub_self]
  exact Int.zero_tdiv u

/-- C8: a newly constructed `Timer` has `end_ = start_`, and reading the
elapsed duration before any `toc()` is well defined: both `tics()` and
`get_duration()` return the zero duration `end_ - start_ = 0` in any unit
(and, being `const`-qualified reads, they are modelled as pure functions of
the timer, so repeated calls cannot mutate it). -/
theorem fresh_timer_reads_zero (t u : Int) :
    (Timer.construct t).end_ = (Timer.construct t).start_ ∧
      (Timer.construct t).tics u = 0 ∧
      (Timer.construct t).get_duration u = 0 := by
  refine ⟨rfl, ?_, ?_⟩
  · show Int.tdiv (t - t) u = 0
    rw [sub_self]
    exact Int.zero_tdiv u
  · show Int.tdiv (t - t) u = 0
    rw [sub_self]
    exact Int.zero_tdiv u

/-- C10: for a unit with integral representation spanning `u` nanoseconds,
`tics()` and `get_duration()` truncate the elapsed interval toward zero:
whenever `end_ - start_` lies strictly between `n` and `n + 1` units, both
report exactly `n`. -/
theorem tics_truncates (s e : Int) (n : Nat) (u : Int) (hu : 0 < u)
    (hlo : (n : Int) * u < e - s) (hhi : e - s < ((n : Int) + 1) * u) :
    Timer.tics ⟨s, e⟩ u = n ∧ Timer.get_duration ⟨s, e⟩ u = n := by
  have hd0 : 0 ≤ e - s :=
    le_trans (mul_nonneg (Int.natCast_nonneg n) (le_of_lt hu)) (le_of_lt hlo)
  have key : (e - s).tdiv u = n := by
    rw [tdiv_eq_ediv_nonneg _ _ hd0 (le_of_lt hu)]
    have h1 : (n : Int) ≤ (e - s) / u := (Int.le_ediv_iff_mul_le hu).mpr (le_of_lt hlo)
    have h2 : (e - s) / u < (n : Int) + 1 := (Int.ediv_lt_iff_lt_mul hu).mpr hhi
    omega
  exact ⟨key, key⟩

/-- Witness for C10: an elapsed interval of 2500000 ns lies strictly between
2 and 3 milliseconds, and `tics()` in milliseconds reports exactly 2. -/
theorem tics_truncates_witness :
    (0 : Int) < 1000000 ∧ ((2 : Nat) : Int) * 1000000 < 2500000 - 0 ∧
      (2500000 : Int) - 0 < (((2 : Nat) : Int) + 1) * 1000000 ∧
      (Timer.tics ⟨0, 2500000⟩ 1000000 = ((2 : Nat) : Int) ∧
        Timer.get_duration ⟨0, 2500000⟩ 1000000 = ((2 : Nat) : Int)) :=
  ⟨by norm_num, by norm_num, by norm_num,
    tics_truncates 0 2500000 2 1000000 (by norm_num) (by norm_num) (by norm_num)⟩

lemma winv_init (n v0 : Nat) (prog : Fin n → ThreadProg) :
    WInv n prog (initConf n v0) := by
  constructor
  · intro i hi
    exact absurd hi.1 (by simp [initConf])
  · intro i j hi hj
    exact absurd hi.1 (by simp [initConf])

lemma winv_step (n : Nat) (prog : Fin n → ThreadProg) (c c2 : Conf n)
    (hstep : Step n prog c c2) (hinv : WInv n prog c) : WInv n prog c2 := by
  obtain ⟨hheld, huniq⟩ := hinv
  cases hstep with
  | readerAcquire i hp hpc hw =>
      have hnone : ∀ j, ¬ InWriterCS n prog
          ⟨⟨c.mutex.readers + 1, false⟩, c.value,
            Function.update c.pc i ThreadPc.inCS⟩ j := by
        intro j hj
        obtain ⟨hjpc, op, hjp⟩ := hj
        have hji : j ≠ i := by
          intro h
          rw [h, hp] at hjp
          cases hjp
        simp only [Function.update_noteq hji] at hjpc
        have hwj := hheld j ⟨hjpc, op, hjp⟩
        rw [hw] at hwj
        cases hwj
      exact ⟨fun j hj => absurd hj (hnone j), fun i2 j hi2 hj => absurd hi2 (hnone i2)⟩
  | readerRelease i hp hpc =>
      have htrans : ∀ j, InWriterCS n prog
          ⟨⟨c.mutex.readers - 1, c.mutex.writerHeld⟩, c.value,
            Function.update c.pc i ThreadPc.atDone⟩ j → InWriterCS n prog c j := by
        intro j hj
        obtain ⟨hjpc, op, hjp⟩ := hj
        by_cases hji : j = i
        · subst hji
          simp only [Function.update_same] at hjpc
          cases hjpc
        · simp only [Function.update_noteq hji] at hjpc
          exact ⟨hjpc, op, hjp⟩
      constructor
      · intro j hj
        exact hheld j (htrans j hj)
      · intro i2 j hi2 hj
        exact huniq i2 j (htrans i2 hi2) (htrans j hj)
  | writerAcquire i op hp hpc hw hr =>
      have honly : ∀ j, InWriterCS n prog
          ⟨⟨0, true⟩, c.value, Function.update c.pc i ThreadPc.inCS⟩ j → j = i := by
        intro j hj
        obtain ⟨hjpc, op2, hjp⟩ := hj
        by_cases hji : j = i
        · exact hji
        · simp only [Function.update_noteq hji] at hjpc
          have hwj := hheld j ⟨hjpc, op2, hjp⟩
          rw [hw] at hwj
          cases hwj
      constructor
      · intro j hj
        rfl
      · intro i2 j hi2 hj
        rw [honly i2 hi2, honly j hj]
  | writerRelease i op hp hpc =>
      have hnone : ∀ j, ¬ InWriterCS n prog
          ⟨⟨c.mutex.readers, false⟩, writerBody op c.value,
            Function.update c.pc i ThreadPc.atDone⟩ j := by
        intro j hj
        obtain ⟨hjpc, op2, hjp⟩ := hj
        by_cases hji : j = i
        · subst hji
          simp only [Function.update_same] at hjpc
          cases hjpc
        · simp only [Function.update_noteq hji] at hjpc
          exact hji (huniq j i ⟨hjpc, op2, hjp⟩ ⟨hpc, op, hp⟩)
      exact ⟨fun j hj => absurd hj (hnone j), fun i2 j hi2 hj => absurd hi2 (hnone i2)⟩

lemma winv_reachable (n : Nat) (prog : Fin n → ThreadProg) (v0 : Nat) (c : Conf n)
    (h : Reachable n prog v0 c) : WInv n prog c := by
  induction h with
  | refl => exact winv_init n v0 prog
  | tail hsteps hstep ih => exact winv_step n prog _ _ hstep ih

/-- C6: in every configuration reachable by interleaving any number of
threads calling `get()`, `increment()` or `reset()` on one counter, at most
one thread is inside the body of `increment()` or `reset()`: two threads
both inside an exclusive (writer) critical section are the same thread. -/
theorem writer_mutual_exclusion (n : Nat) (prog : Fin n → ThreadProg) (v0 : Nat)
    (c : Conf n) (h : Reachable n prog v0 c) (i j : Fin n)
    (hi : InWriterCS n prog c i) (hj : InWriterCS n prog c j) : i = j :=
  (winv_reachable n prog v0 c h).2 i j hi hj

/-- Witness for C6: the configuration with writer `0` inside its critical
section is reachable in one step, thread `0` is inside a writer critical
section there, and the theorem applies. -/
theorem writer_mutual_exclusion_witness :
    Reachable 2 twoWriters 0 confOneWriterIn ∧
      InWriterCS 2 twoWriters confOneWriterIn 0 ∧ (0 : Fin 2) = 0 := by
  have hreach : Reachable 2 twoWriters 0 confOneWriterIn :=
    Relation.ReflTransGen.single
      (Step.writerAcquire (initConf 2 0) 0 WriterOp.increment rfl rfl rfl rfl)
  have hcs : InWriterCS 2 twoWriters confOneWriterIn 0 :=
    ⟨by simp [confOneWriterIn], WriterOp.increment, rfl⟩
  exact ⟨hreach, hcs,
    writer_mutual_exclusion 2 twoWriters 0 confOneWriterIn hreach 0 0 hcs hcs⟩
